import Mathlib

/-!
Shallow embedding of the npmclean detection-and-cleanup engine
(`src/scanner.rs`, `src/cleaner.rs`, `src/project/*.rs`, `src/plugins/*.rs`,
`src/main.rs`) together with proofs about the spec's claims.

Filesystem paths are modelled as lists of components; the filesystem itself
is a structure of query functions (existence, directory test, directory
listing, parsed manifest), so that every source-level filesystem call has a
direct counterpart.  Glob matching (the `globset` crate) is abstracted as a
parameter `gm : String → Path → Bool`.
-/

namespace Npmclean

/-- A filesystem path, as a list of components (`PathBuf::join` appends one
component). -/
abbrev Path := List String

/-- `path.join(name)` from the source. -/
def Path.child (p : Path) (name : String) : Path := p ++ [name]

/-- Parsed `package.json` metadata (`PackageInfo` in `src/project/mod.rs`).
Dependency maps are modelled as association lists; detection only ever asks
`contains_key`. -/
structure PackageInfo where
  name : String
  version : String
  dependencies : List (String × String)
  devDependencies : List (String × String)
  deriving Repr, DecidableEq

/-- `HashMap::contains_key` on a dependency map. -/
def containsKey (m : List (String × String)) (k : String) : Bool :=
  m.any (fun kv => kv.1 == k)

/-- `ProjectType` from `src/project/mod.rs`. -/
inductive ProjectType where
  | NodeJs | React | Vue | Angular | NextJs | NuxtJs | Unknown
  deriving Repr, DecidableEq

/-- `TargetType` from `src/project/mod.rs`. -/
inductive TargetType where
  | NodeModules
  | BuildDir
  | CacheDir
  | Coverage
  | Custom (name : String)
  deriving Repr, DecidableEq

/-- `SizeInfo` from `src/project/mod.rs` (byte counts as `Nat`). -/
structure SizeInfo where
  totalSize : Nat
  nodeModulesSize : Nat
  buildDirsSize : Nat
  cacheDirsSize : Nat
  coverageDirsSize : Nat
  deriving Repr, DecidableEq

/-- `CleanTarget` from `src/project/mod.rs`. -/
structure CleanTarget where
  path : Path
  targetType : TargetType
  size : Option Nat
  deriving Repr, DecidableEq

/-- `Project` from `src/project/mod.rs`. -/
structure Project where
  path : Path
  projectType : ProjectType
  packageInfo : Option PackageInfo
  sizeInfo : Option SizeInfo
  detectedTargets : List CleanTarget
  deriving Repr, DecidableEq

/-- `Project::new` from `src/project/mod.rs`. -/
def Project.new (path : Path) : Project :=
  { path := path
    projectType := .Unknown
    packageInfo := none
    sizeInfo := none
    detectedTargets := [] }

/-- The filesystem, as the family of queries the source performs.
`childNames`/`entryIsDir` model `fs::read_dir` entries and their (non
symlink-following) `file_type`; `pathExists`/`isDir` model `Path::exists`
and `Path::is_dir`; `packageJson` models reading and parsing
`<dir>/package.json` (`none` = read or parse failure); `dirSize` models
`calculate_directory_size`; `canon` is the canonical-identity map of the
underlying filesystem (aliasing via links/mounts), which the source never
consults. -/
structure FileSystem where
  pathExists : Path → Bool
  isDir : Path → Bool
  childNames : Path → List String
  entryIsDir : Path → Bool
  packageJson : Path → Option PackageInfo
  dirSize : Path → Nat
  canon : Path → Path

/-- `Project::has_package_json` from `src/project/mod.rs`. -/
def hasPackageJson (fs : FileSystem) (p : Path) : Bool :=
  fs.pathExists (Path.child p "package.json")

/-- `Config` from `src/config/schema.rs` (only durations are collapsed to
`Nat` milliseconds). -/
structure Config where
  targets : List String
  exclude : List String
  recursive : Bool
  force : Bool
  dryRun : Bool
  stats : Bool
  verbose : Bool
  cleanNodeModules : Bool
  cleanBuildDirs : Bool
  cleanCacheDirs : Bool
  cleanCoverageDirs : Bool
  customTargets : List String
  maxDepth : Option Nat
  minSize : Option Nat
  threads : Option Nat
  timeoutMs : Option Nat
  deriving Repr, DecidableEq

/-! ## Detector chain (`src/project/analyzers.rs`, `src/project/detector.rs`) -/

/-- The closed set of built-in detectors, in the order `get_all_detectors`
assembles them. -/
inductive Detector where
  | nextJs | nuxtJs | angular | vue | react | defaultDet
  deriving Repr, DecidableEq

/-- `get_all_detectors` from `src/project/analyzers.rs`. -/
def allDetectors : List Detector :=
  [.nextJs, .nuxtJs, .angular, .vue, .react, .defaultDet]

/-- Each detector's `detect` method.  It receives the project by mutable
reference; we return the (possibly updated) project.  `Except Unit`
carries `Result`: `.error` is a `DetectionError`.  Faithful reading of the
source: every framework detector first matches on `project.package_info`
and returns `Ok(false)` when it is `None`, before any config-file check. -/
def Detector.detect (d : Detector) (fs : FileSystem) (proj : Project) :
    Except Unit (Bool × Project) :=
  match d with
  | .nextJs =>
    match proj.packageInfo with
    | none => .ok (false, proj)
    | some info =>
      let isNextjs := containsKey info.dependencies "next"
        || containsKey info.devDependencies "next"
      let hasNextConfig := fs.pathExists (Path.child proj.path "next.config.js")
      if isNextjs || hasNextConfig then
        .ok (true, { proj with projectType := .NextJs })
      else .ok (false, proj)
  | .nuxtJs =>
    match proj.packageInfo with
    | none => .ok (false, proj)
    | some info =>
      let isNuxtjs := containsKey info.dependencies "nuxt"
        || containsKey info.devDependencies "nuxt"
      let hasNuxtConfig := fs.pathExists (Path.child proj.path "nuxt.config.js")
        || fs.pathExists (Path.child proj.path "nuxt.config.ts")
      if isNuxtjs || hasNuxtConfig then
        .ok (true, { proj with projectType := .NuxtJs })
      else .ok (false, proj)
  | .angular =>
    match proj.packageInfo with
    | none => .ok (false, proj)
    | some info =>
      let isAngular := containsKey info.dependencies "@angular/core"
        || containsKey info.devDependencies "@angular/core"
      let hasAngularConfig := fs.pathExists (Path.child proj.path "angular.json")
      if isAngular || hasAngularConfig then
        .ok (true, { proj with projectType := .Angular })
      else .ok (false, proj)
  | .vue =>
    match proj.packageInfo with
    | none => .ok (false, proj)
    | some info =>
      let isVue := containsKey info.dependencies "vue"
        || containsKey info.devDependencies "vue"
        || containsKey info.dependencies "@vue/cli-service"
        || containsKey info.devDependencies "@vue/cli-service"
        || fs.pathExists (Path.child proj.path "vue.config.js")
        || fs.pathExists (Path.child proj.path "vite.config.js")
      if isVue then .ok (true, { proj with projectType := .Vue })
      else .ok (false, proj)
  | .react =>
    match proj.packageInfo with
    | none => .ok (false, proj)
    | some info =>
      let isReact := containsKey info.dependencies "react"
        || containsKey info.devDependencies "react"
      if isReact then .ok (true, { proj with projectType := .React })
      else .ok (false, proj)
  | .defaultDet =>
    if !hasPackageJson fs proj.path then .ok (false, proj)
    else
      match fs.packageJson proj.path with
      | none => .error ()   -- `parse_package_json` failed
      | some info =>
        .ok (true, { proj with packageInfo := some info, projectType := .NodeJs })

/-- `get_build_dirs` per detector (the source ignores its project
argument). -/
def Detector.buildDirs : Detector → List String
  | .nextJs => [".next", "out"]
  | .nuxtJs => [".nuxt", "dist"]
  | .angular => ["dist"]
  | .vue => ["dist"]
  | .react => ["build", "dist"]
  | .defaultDet => ["dist", "build", "out"]

/-- `get_cache_dirs` per detector (trait default is the empty list). -/
def Detector.cacheDirs : Detector → List String
  | .nuxtJs => [".cache"]
  | .angular => [".angular"]
  | .defaultDet => [".cache"]
  | _ => []

/-- `get_coverage_dirs` per detector (no detector overrides the trait
default). -/
def Detector.coverageDirs : Detector → List String
  | _ => ["coverage"]

/-- `get_priority` per detector. -/
def Detector.priority : Detector → Nat
  | .nextJs => 80
  | .nuxtJs => 85
  | .angular => 90
  | .vue => 100
  | .react => 100
  | .defaultDet => 200

/-- The `if let Ok(true) = d.detect(..)` test used by
`Scanner::determine_clean_targets` (on a clone, so the project is
unchanged). -/
def detectorMatches (d : Detector) (fs : FileSystem) (proj : Project) : Bool :=
  match d.detect fs proj with
  | .ok (true, _) => true
  | _ => false

/-! ## Scanner (`src/scanner.rs`) -/

/-- State of the BFS loop in `Scanner::find_project_paths`: the work
queue (path, depth), the visited set (as the list of inserted keys, most
recent first) and the accumulated project paths. -/
structure ScanState where
  queue : List (Path × Nat)
  visited : List Path
  projectPaths : List Path
  deriving Repr, DecidableEq

/-- Initial scan state for a root path (the queue holds `(root, 0)`). -/
def ScanState.init (root : Path) : ScanState :=
  { queue := [(root, 0)], visited := [], projectPaths := [] }

/-- One iteration of the `while let Some((path, depth)) = queue.pop_front()`
loop body of `Scanner::find_project_paths`. -/
def scanStep (cfg : Config) (fs : FileSystem) (s : ScanState) : ScanState :=
  match s.queue with
  | [] => s
  | (path, depth) :: rest =>
    -- `if !visited_dirs.insert(path.clone()) { continue; }`
    if path ∈ s.visited then { s with queue := rest }
    else
      let s := { s with queue := rest, visited := path :: s.visited }
      -- depth limit
      if (match cfg.maxDepth with | some md => decide (depth > md) | none => false) then s
      else
        let isProj := hasPackageJson fs path
        let s :=
          if isProj then { s with projectPaths := s.projectPaths ++ [path] } else s
        -- non-recursive mode stops descending below a project directory
        if isProj && !cfg.recursive then s
        else
          let names := (fs.childNames path).filter
            (fun n => fs.entryIsDir (Path.child path n) && n != "node_modules")
          { s with queue := s.queue ++ names.map (fun n => (Path.child path n, depth + 1)) }

/-- Run the scan loop for at most `fuel` iterations (the loop terminates
only when the queue drains; the fuel replaces that termination argument). -/
def scanRun (cfg : Config) (fs : FileSystem) : Nat → ScanState → ScanState
  | 0, s => s
  | fuel + 1, s =>
    if s.queue.isEmpty then s else scanRun cfg fs fuel (scanStep cfg fs s)

/-- `Scanner::find_project_paths`. -/
def findProjectPaths (cfg : Config) (fs : FileSystem) (fuel : Nat) (root : Path) :
    List Path :=
  (scanRun cfg fs fuel (ScanState.init root)).projectPaths

/-- The classification loop of `Scanner::analyze_project`: try each
detector in order, stop at the first `Ok(true)`; `Ok(false)` and `Err`
both continue with the project unchanged. -/
def detectLoop (fs : FileSystem) : List Detector → Project → Project
  | [], proj => proj
  | d :: ds, proj =>
    match d.detect fs proj with
    | .ok (true, proj') => proj'
    | .ok (false, _) => detectLoop fs ds proj
    | .error _ => detectLoop fs ds proj

/-- The `detectors.iter().find(..)` in `Scanner::determine_clean_targets`:
first detector whose `detect` on a clone returns `Ok(true)`, defaulting to
the last detector in the chain. -/
def findDetector (fs : FileSystem) (proj : Project) : Detector :=
  (allDetectors.find? (fun d => detectorMatches d fs proj)).getD
    (allDetectors.getLast (by simp [allDetectors]))

/-- `if self.config.stats { Some(calculate_directory_size(p)?) } else { None }`. -/
def measuredSize (cfg : Config) (fs : FileSystem) (p : Path) : Option Nat :=
  if cfg.stats then some (fs.dirSize p) else none

/-- `Scanner::is_excluded`; `gm` abstracts `globset` pattern matching
(a pattern that fails to compile is a `gm` that never matches). -/
def isExcluded (gm : String → Path → Bool) (cfg : Config) (p : Path) : Bool :=
  cfg.exclude.any (fun pat => gm pat p)

/-- `Scanner::determine_clean_targets`. -/
def determineCleanTargets (gm : String → Path → Bool) (cfg : Config)
    (fs : FileSystem) (proj : Project) : Project :=
  let d := findDetector fs proj
  let nmPath := Path.child proj.path "node_modules"
  -- node_modules is always discovered when present, regardless of switches
  let nmTargets : List CleanTarget :=
    if fs.pathExists nmPath then
      [{ path := nmPath, targetType := .NodeModules, size := measuredSize cfg fs nmPath }]
    else []
  let buildTargets : List CleanTarget :=
    if cfg.cleanBuildDirs then
      ((d.buildDirs).filter
          (fun n => fs.pathExists (Path.child proj.path n)
            && fs.isDir (Path.child proj.path n))).map
        (fun n => { path := Path.child proj.path n, targetType := .BuildDir,
                    size := measuredSize cfg fs (Path.child proj.path n) })
    else []
  let cacheTargets : List CleanTarget :=
    if cfg.cleanCacheDirs then
      ((d.cacheDirs).filter
          (fun n => fs.pathExists (Path.child proj.path n)
            && fs.isDir (Path.child proj.path n))).map
        (fun n => { path := Path.child proj.path n, targetType := .CacheDir,
                    size := measuredSize cfg fs (Path.child proj.path n) })
    else []
  let coverageTargets : List CleanTarget :=
    if cfg.cleanCoverageDirs then
      ((d.coverageDirs).filter
          (fun n => fs.pathExists (Path.child proj.path n)
            && fs.isDir (Path.child proj.path n))).map
        (fun n => { path := Path.child proj.path n, targetType := .Coverage,
                    size := measuredSize cfg fs (Path.child proj.path n) })
    else []
  let customTgts : List CleanTarget :=
    ((cfg.customTargets).filter
        (fun n => fs.pathExists (Path.child proj.path n))).map
      (fun n => { path := Path.child proj.path n, targetType := .Custom n,
                  size := measuredSize cfg fs (Path.child proj.path n) })
  let targets :=
    (nmTargets ++ buildTargets ++ cacheTargets ++ coverageTargets ++ customTgts).filter
      (fun t => !isExcluded gm cfg t.path)
  { proj with detectedTargets := targets }

/-- `Scanner::calculate_size_info`. -/
def calculateSizeInfo (proj : Project) : Project :=
  let acc := proj.detectedTargets.foldl
    (fun (a : SizeInfo) t =>
      match t.size with
      | none => a
      | some sz =>
        let a := { a with totalSize := a.totalSize + sz }
        match t.targetType with
        | .NodeModules => { a with nodeModulesSize := a.nodeModulesSize + sz }
        | .BuildDir => { a with buildDirsSize := a.buildDirsSize + sz }
        | .CacheDir => { a with cacheDirsSize := a.cacheDirsSize + sz }
        | .Coverage => { a with coverageDirsSize := a.coverageDirsSize + sz }
        | .Custom _ => a)
    { totalSize := 0, nodeModulesSize := 0, buildDirsSize := 0,
      cacheDirsSize := 0, coverageDirsSize := 0 }
  { proj with sizeInfo := some acc }

/-- `Scanner::analyze_project`. -/
def analyzeProject (gm : String → Path → Bool) (cfg : Config) (fs : FileSystem)
    (projectPath : Path) : Project :=
  let proj := Project.new projectPath
  let proj := detectLoop fs allDetectors proj
  let proj := determineCleanTargets gm cfg fs proj
  if cfg.stats then calculateSizeInfo proj else proj

/-- `Scanner::scan` (analysis of the discovered paths; the parallel
`filter_map` is order-preserving, and with the total model of directory
sizes no per-path analysis fails). -/
def scan (gm : String → Path → Bool) (cfg : Config) (fs : FileSystem)
    (fuel : Nat) (root : Path) : List Project :=
  (findProjectPaths cfg fs fuel root).map (analyzeProject gm cfg fs)

/-! ## Cleaner (`src/cleaner.rs`) -/

/-- `CleanResults` from `src/cleaner.rs`. -/
structure CleanResults where
  totalProjects : Nat
  cleanedProjects : Nat
  failedProjects : Nat
  totalTargets : Nat
  cleanedTargets : Nat
  failedTargets : Nat
  totalBytesRemoved : Nat
  deriving Repr, DecidableEq

/-- The initial accumulator built at the top of `Cleaner::clean`. -/
def CleanResults.init (projects : List Project) : CleanResults :=
  { totalProjects := projects.length
    cleanedProjects := 0
    failedProjects := 0
    totalTargets := 0
    cleanedTargets := 0
    failedTargets := 0
    totalBytesRemoved := 0 }

/-- State threaded through cleaning: the filesystem plus the shared
results accumulator (the `Arc<Mutex<CleanResults>>`). -/
structure CleanState where
  fs : FileSystem
  results : CleanResults

/-- `remove_dir_all`: a successful removal removes the directory and its
whole subtree. -/
def removeDir (fs : FileSystem) (p : Path) : FileSystem :=
  { fs with
    pathExists := fun q => if p.isPrefixOf q then false else fs.pathExists q
    isDir := fun q => if p.isPrefixOf q then false else fs.isDir q
    childNames := fun q =>
      if p.isPrefixOf q then []
      else (fs.childNames q).filter (fun n => !p.isPrefixOf (Path.child q n)) }

/-- The per-target-type switch consulted by `Cleaner::clean_project`
(custom targets are always eligible). -/
def shouldClean (cfg : Config) : TargetType → Bool
  | .NodeModules => cfg.cleanNodeModules
  | .BuildDir => cfg.cleanBuildDirs
  | .CacheDir => cfg.cleanCacheDirs
  | .Coverage => cfg.cleanCoverageDirs
  | .Custom _ => true

/-- `Cleaner::clean_target`.  `removeFails p = true` models
`remove_directory(p)` raising an I/O error (injected environment
condition); dry-run mode touches nothing and counts the target as
cleaned. -/
def cleanTarget (cfg : Config) (removeFails : Path → Bool) (target : CleanTarget)
    (st : CleanState) : CleanState :=
  if cfg.dryRun then
    { st with results :=
        { st.results with
          cleanedTargets := st.results.cleanedTargets + 1
          totalBytesRemoved := st.results.totalBytesRemoved + target.size.getD 0 } }
  else if removeFails target.path then
    { st with results :=
        { st.results with failedTargets := st.results.failedTargets + 1 } }
  else
    { fs := removeDir st.fs target.path
      results :=
        { st.results with
          cleanedTargets := st.results.cleanedTargets + 1
          totalBytesRemoved := st.results.totalBytesRemoved + target.size.getD 0 } }

/-- The body of the per-target loop in `Cleaner::clean_project`: consult
the target's switch, skip or attempt. -/
def stepTarget (cfg : Config) (removeFails : Path → Bool) (st : CleanState)
    (t : CleanTarget) : CleanState :=
  if shouldClean cfg t.targetType then cleanTarget cfg removeFails t st else st

/-- `Cleaner::clean_project`: count the project's targets, attempt each
eligible target in order (a failed target is logged and the loop
continues), then count the project as cleaned unconditionally. -/
def cleanProject (cfg : Config) (removeFails : Path → Bool) (proj : Project)
    (st : CleanState) : CleanState :=
  let st := { st with results :=
    { st.results with totalTargets := st.results.totalTargets + proj.detectedTargets.length } }
  let st := proj.detectedTargets.foldl (stepTarget cfg removeFails) st
  { st with results :=
      { st.results with cleanedProjects := st.results.cleanedProjects + 1 } }

/-- The parallel per-project map of `Cleaner::clean`, as a fold over the
shared accumulator. -/
def runProjects (cfg : Config) (removeFails : Path → Bool) (projects : List Project)
    (st : CleanState) : CleanState :=
  projects.foldl (fun st p => cleanProject cfg removeFails p st) st

/-- Outcome of `Cleaner::clean`: final filesystem, final results, and
whether the interactive confirmation prompt was shown. -/
structure CleanRun where
  fs : FileSystem
  results : CleanResults
  prompted : Bool

/-- `Cleaner::clean`.  `userConfirms` is the answer read from stdin when
the prompt is shown.  The parallel per-project map with a lock-protected
accumulator is modelled as a left fold (every increment is a discrete
critical section, so the folded totals agree with any interleaving). -/
def clean (cfg : Config) (removeFails : Path → Bool) (userConfirms : Bool)
    (projects : List Project) (fs : FileSystem) : CleanRun :=
  let results := CleanResults.init projects
  if projects.isEmpty then
    { fs := fs, results := results, prompted := false }
  else if !cfg.force && !cfg.dryRun then
    if userConfirms then
      let st := runProjects cfg removeFails projects { fs := fs, results := results }
      { fs := st.fs, results := st.results, prompted := true }
    else
      { fs := fs, results := results, prompted := true }
  else
    let st := runProjects cfg removeFails projects { fs := fs, results := results }
    { fs := st.fs, results := st.results, prompted := false }

/-! ### Measurement functions over a cleanup plan (used to state the
claims about `CleanResults`) -/

/-- The eligible (non-skipped) targets of a target list under a
configuration. -/
def eligibleTargets (cfg : Config) (ts : List CleanTarget) : List CleanTarget :=
  ts.filter (fun t => shouldClean cfg t.targetType)

/-- Total byte size of a target list (`size` of `None` counts 0, exactly
as `target.size.unwrap_or(0)` does). -/
def targetsBytes (ts : List CleanTarget) : Nat :=
  (ts.map (fun t => t.size.getD 0)).sum

/-- Sum of sizes of all eligible targets across a project list. -/
def planBytes (cfg : Config) (projects : List Project) : Nat :=
  (projects.map (fun p => targetsBytes (eligibleTargets cfg p.detectedTargets))).sum

/-- Number of eligible targets across a project list. -/
def planEligible (cfg : Config) (projects : List Project) : Nat :=
  (projects.map (fun p => (eligibleTargets cfg p.detectedTargets).length)).sum

/-- Number of eligible targets whose removal fails, across a project
list. -/
def planFailed (cfg : Config) (removeFails : Path → Bool) (projects : List Project) : Nat :=
  (projects.map (fun p =>
    ((eligibleTargets cfg p.detectedTargets).filter (fun t => removeFails t.path)).length)).sum

/-- Number of eligible targets whose removal succeeds, across a project
list. -/
def planSucceeded (cfg : Config) (removeFails : Path → Bool) (projects : List Project) : Nat :=
  (projects.map (fun p =>
    ((eligibleTargets cfg p.detectedTargets).filter (fun t => !removeFails t.path)).length)).sum

/-- Bytes of the eligible targets whose removal succeeds, across a
project list. -/
def planSucceededBytes (cfg : Config) (removeFails : Path → Bool)
    (projects : List Project) : Nat :=
  (projects.map (fun p =>
    targetsBytes ((eligibleTargets cfg p.detectedTargets).filter
      (fun t => !removeFails t.path)))).sum

/-! ## Plugin hooks (`src/plugins/mod.rs`, `src/plugins/registry.rs`,
`src/main.rs`) -/

/-- `HookType` from `src/plugins/mod.rs`. -/
inductive HookType where
  | beforeCleaning
  | afterCleaning
  | beforeCleanProject
  | afterCleanProject
  | beforeCleanTarget
  | afterCleanTarget
  deriving Repr, DecidableEq

/-- `PluginRegistry::execute_hook`: invoke the given hook on every
registered plugin (plugins are identified by name).  The result is the
list of (plugin, hook) invocations it performs. -/
def executeHook (plugins : List String) (h : HookType) : List (String × HookType) :=
  plugins.map (fun p => (p, h))

/-- The hook invocations performed by one whole run of `main`
(`src/main.rs`): `BeforeCleaning` before the scan, `AfterCleaning` after
`Cleaner::clean` returns.  Neither `Scanner::scan` nor `Cleaner::clean`
invokes any hook, so the trace does not depend on the project list. -/
def mainHookTrace (plugins : List String) (_projects : List Project) :
    List (String × HookType) :=
  executeHook plugins .beforeCleaning ++ executeHook plugins .afterCleaning

/-! ## Concrete inputs

The acceptance scenario of spec §8: a root with `proj-a` (manifest with a
`next` dependency, a `node_modules` directory, a `.next` directory) and
`proj-b` (manifest with a `vue` dependency and a `dist` directory). -/

/-- The scenario root. -/
def rootC1 : Path := ["root"]

/-- `proj-a`'s directory. -/
def projAPath : Path := ["root", "proj-a"]

/-- `proj-b`'s directory. -/
def projBPath : Path := ["root", "proj-b"]

/-- The paths that exist in the scenario filesystem. -/
def existingC1 : List Path :=
  [ rootC1, projAPath, projBPath
  , projAPath ++ ["package.json"], projAPath ++ ["node_modules"], projAPath ++ [".next"]
  , projAPath ++ ["node_modules", "left-pad"]
  , projBPath ++ ["package.json"], projBPath ++ ["dist"] ]

/-- The directories in the scenario filesystem. -/
def dirsC1 : List Path :=
  [ rootC1, projAPath, projBPath
  , projAPath ++ ["node_modules"], projAPath ++ ["node_modules", "left-pad"]
  , projAPath ++ [".next"], projBPath ++ ["dist"] ]

/-- The scenario filesystem. -/
def fsC1 : FileSystem where
  pathExists p := decide (p ∈ existingC1)
  isDir p := decide (p ∈ dirsC1)
  childNames p :=
    if p = rootC1 then ["proj-a", "proj-b"]
    else if p = projAPath then ["package.json", "node_modules", ".next"]
    else if p = projBPath then ["package.json", "dist"]
    else if p = projAPath ++ ["node_modules"] then ["left-pad"]
    else []
  entryIsDir p := decide (p ∈ dirsC1)
  packageJson p :=
    if p = projAPath then
      some { name := "proj-a", version := "1.0.0"
             dependencies := [("next", "^13")], devDependencies := [] }
    else if p = projBPath then
      some { name := "proj-b", version := "1.0.0"
             dependencies := [("vue", "^3")], devDependencies := [] }
    else none
  dirSize _ := 0
  canon p := p

/-- The trivial glob matcher (the scenario has no exclusion patterns). -/
def gm0 : String → Path → Bool := fun _ _ => false

/-- The scenario configuration: non-recursive, all clean switches on,
force on, dry-run on. -/
def cfgC1 : Config :=
  { targets := [], exclude := [], recursive := false, force := true
    dryRun := true, stats := false, verbose := false
    cleanNodeModules := true, cleanBuildDirs := true
    cleanCacheDirs := true, cleanCoverageDirs := true
    customTargets := [], maxDepth := none, minSize := none
    threads := none, timeoutMs := none }

/-- A run in which no removal fails. -/
def removeFailsNone : Path → Bool := fun _ => false

/-- The scenario scan. -/
def scanC1 : List Project := scan gm0 cfgC1 fsC1 20 rootC1

/-- The scenario configuration with a custom target named exactly like the
dependency directory. -/
def cfgC5 : Config := { cfgC1 with customTargets := ["node_modules"] }

/-- The scenario scan under `cfgC5`. -/
def scanC5 : List Project := scan gm0 cfgC5 fsC1 20 rootC1

/-- Every directory name any built-in detector can contribute to a plan,
plus the dependency directory. -/
def reservedNames : List String :=
  ["node_modules", "dist", "build", "out", ".next", ".nuxt", ".cache",
   ".angular", "coverage"]

/-- The scenario configuration with a custom target that collides with
nothing. -/
def cfgTmp : Config := { cfgC1 with customTargets := ["tmp"] }

/-- A filesystem where the root has two directory entries `a` and `b`
that are two names for the same underlying directory (e.g. a bind mount):
`canon` sends both to `r/a`. -/
def fsC7 : FileSystem where
  pathExists p :=
    decide (p ∈ [(["r", "a", "package.json"] : Path), ["r", "b", "package.json"]])
  isDir p := decide (p ∈ [(["r"] : Path), ["r", "a"], ["r", "b"]])
  childNames p := if p = ["r"] then ["a", "b"] else []
  entryIsDir p := decide (p ∈ [(["r", "a"] : Path), ["r", "b"]])
  packageJson p :=
    if p = ["r", "a"] ∨ p = ["r", "b"] then
      some { name := "aliased", version := "1.0.0"
             dependencies := [], devDependencies := [] }
    else none
  dirSize _ := 0
  canon p := if p = ["r", "b"] then ["r", "a"] else p

/-- The scenario configuration with neither force nor dry-run. -/
def cfgNoForce : Config := { cfgC1 with force := false, dryRun := false }

/-- A project the Scanner could hand over with an empty target list. -/
def emptyProj : Project := Project.new ["root", "empty-proj"]

/-- The scenario configuration in real (non-dry) mode, force on. -/
def cfgWet : Config := { cfgC1 with dryRun := false }

/-- A project with two eligible targets, used to exercise partial
failure. -/
def projW : Project :=
  { path := ["w"]
    projectType := .NodeJs
    packageInfo := none
    sizeInfo := none
    detectedTargets :=
      [ { path := ["w", "node_modules"], targetType := .NodeModules, size := some 5 }
      , { path := ["w", "dist"], targetType := .BuildDir, size := some 7 } ] }

/-- Removal fails exactly on `projW`'s first target. -/
def removeFailsW : Path → Bool := fun p => decide (p = ["w", "node_modules"])

/-- Total number of detected targets across a project list. -/
def planTargets (projects : List Project) : Nat :=
  (projects.map (fun p => p.detectedTargets.length)).sum

/-! ## Fold characterizations of the Cleaner -/

theorem foldTargets_dry (cfg : Config) (rf : Path → Bool) (h : cfg.dryRun = true)
    (ts : List CleanTarget) : ∀ st : CleanState,
    (ts.foldl (stepTarget cfg rf) st).fs = st.fs ∧
    (ts.foldl (stepTarget cfg rf) st).results =
      { st.results with
        cleanedTargets := st.results.cleanedTargets + (eligibleTargets cfg ts).length
        totalBytesRemoved :=
          st.results.totalBytesRemoved + targetsBytes (eligibleTargets cfg ts) } := by
  induction ts with
  | nil =>
    intro st
    simp [eligibleTargets, targetsBytes]
  | cons t ts ih =>
    intro st
    by_cases hsc : shouldClean cfg t.targetType = true
    · have hstep : stepTarget cfg rf st t =
        { st with results :=
          { st.results with
            cleanedTargets := st.results.cleanedTargets + 1
            totalBytesRemoved := st.results.totalBytesRemoved + t.size.getD 0 } } := by
        simp [stepTarget, hsc, cleanTarget, h]
      obtain ⟨hfs, hres⟩ := ih (stepTarget cfg rf st t)
      refine ⟨by simpa [hstep] using hfs, ?_⟩
      rw [List.foldl_cons, hres, hstep]
      simp [eligibleTargets, targetsBytes, List.filter_cons, hsc]
      constructor <;> omega
    · have hstep : stepTarget cfg rf st t = st := by
        simp [stepTarget, hsc]
      obtain ⟨hfs, hres⟩ := ih (stepTarget cfg rf st t)
      refine ⟨by simpa [hstep] using hfs, ?_⟩
      rw [List.foldl_cons, hres, hstep]
      simp [eligibleTargets, List.filter_cons, hsc]

theorem foldTargets_wet (cfg : Config) (rf : Path → Bool) (h : cfg.dryRun = false)
    (ts : List CleanTarget) : ∀ st : CleanState,
    (ts.foldl (stepTarget cfg rf) st).results =
      { st.results with
        cleanedTargets := st.results.cleanedTargets +
          ((eligibleTargets cfg ts).filter (fun t => !rf t.path)).length
        failedTargets := st.results.failedTargets +
          ((eligibleTargets cfg ts).filter (fun t => rf t.path)).length
        totalBytesRemoved := st.results.totalBytesRemoved +
          targetsBytes ((eligibleTargets cfg ts).filter (fun t => !rf t.path)) } := by
  induction ts with
  | nil =>
    intro st
    simp [eligibleTargets, targetsBytes]
  | cons t ts ih =>
    intro st
    by_cases hsc : shouldClean cfg t.targetType = true
    · by_cases hrf : rf t.path = true
      · have hstep : stepTarget cfg rf st t =
          { st with results :=
            { st.results with failedTargets := st.results.failedTargets + 1 } } := by
          simp [stepTarget, hsc, cleanTarget, h, hrf]
        rw [List.foldl_cons, ih (stepTarget cfg rf st t), hstep]
        simp [eligibleTargets, targetsBytes, List.filter_cons, hsc, hrf]
        omega
      · have hstep : stepTarget cfg rf st t =
          { fs := removeDir st.fs t.path
            results :=
            { st.results with
              cleanedTargets := st.results.cleanedTargets + 1
              totalBytesRemoved := st.results.totalBytesRemoved + t.size.getD 0 } } := by
          simp [stepTarget, hsc, cleanTarget, h, hrf]
        rw [List.foldl_cons, ih (stepTarget cfg rf st t), hstep]
        simp [eligibleTargets, targetsBytes, List.filter_cons, hsc, hrf]
        constructor <;> omega
    · have hstep : stepTarget cfg rf st t = st := by
        simp [stepTarget, hsc]
      rw [List.foldl_cons, ih (stepTarget cfg rf st t), hstep]
      simp [eligibleTargets, List.filter_cons, hsc]

theorem cleanProject_dry (cfg : Config) (rf : Path → Bool) (h : cfg.dryRun = true)
    (proj : Project) (st : CleanState) :
    (cleanProject cfg rf proj st).fs = st.fs ∧
    (cleanProject cfg rf proj st).results =
      { st.results with
        cleanedProjects := st.results.cleanedProjects + 1
        totalTargets := st.results.totalTargets + proj.detectedTargets.length
        cleanedTargets := st.results.cleanedTargets +
          (eligibleTargets cfg proj.detectedTargets).length
        totalBytesRemoved := st.results.totalBytesRemoved +
          targetsBytes (eligibleTargets cfg proj.detectedTargets) } := by
  obtain ⟨hfs, hres⟩ := foldTargets_dry cfg rf h proj.detectedTargets
    { st with results :=
      { st.results with totalTargets := st.results.totalTargets + proj.detectedTargets.length } }
  refine ⟨by simpa [cleanProject] using hfs, ?_⟩
  simp only [cleanProject]
  rw [hres]

theorem cleanProject_wet (cfg : Config) (rf : Path → Bool) (h : cfg.dryRun = false)
    (proj : Project) (st : CleanState) :
    (cleanProject cfg rf proj st).results =
      { st.results with
        cleanedProjects := st.results.cleanedProjects + 1
        totalTargets := st.results.totalTargets + proj.detectedTargets.length
        cleanedTargets := st.results.cleanedTargets +
          ((eligibleTargets cfg proj.detectedTargets).filter (fun t => !rf t.path)).length
        failedTargets := st.results.failedTargets +
          ((eligibleTargets cfg proj.detectedTargets).filter (fun t => rf t.path)).length
        totalBytesRemoved := st.results.totalBytesRemoved +
          targetsBytes ((eligibleTargets cfg proj.detectedTargets).filter
            (fun t => !rf t.path)) } := by
  simp only [cleanProject]
  rw [foldTargets_wet cfg rf h proj.detectedTargets]

theorem runProjects_dry (cfg : Config) (rf : Path → Bool) (h : cfg.dryRun = true)
    (projects : List Project) : ∀ st : CleanState,
    (runProjects cfg rf projects st).fs = st.fs ∧
    (runProjects cfg rf projects st).results =
      { st.results with
        cleanedProjects := st.results.cleanedProjects + projects.length
        totalTargets := st.results.totalTargets + planTargets projects
        cleanedTargets := st.results.cleanedTargets + planEligible cfg projects
        totalBytesRemoved := st.results.totalBytesRemoved + planBytes cfg projects } := by
  induction projects with
  | nil =>
    intro st
    simp [runProjects, planTargets, planEligible, planBytes]
  | cons p ps ih =>
    intro st
    obtain ⟨hfs1, hres1⟩ := cleanProject_dry cfg rf h p st
    obtain ⟨hfs2, hres2⟩ := ih (cleanProject cfg rf p st)
    have hq : runProjects cfg rf (p :: ps) st =
        runProjects cfg rf ps (cleanProject cfg rf p st) := by
      simp [runProjects]
    refine ⟨by rw [hq, hfs2, hfs1], ?_⟩
    rw [hq, hres2, hres1]
    simp [planTargets, planEligible, planBytes]
    refine ⟨by omega, by omega, by omega, by omega⟩

theorem runProjects_wet (cfg : Config) (rf : Path → Bool) (h : cfg.dryRun = false)
    (projects : List Project) : ∀ st : CleanState,
    (runProjects cfg rf projects st).results =
      { st.results with
        cleanedProjects := st.results.cleanedProjects + projects.length
        totalTargets := st.results.totalTargets + planTargets projects
        cleanedTargets := st.results.cleanedTargets + planSucceeded cfg rf projects
        failedTargets := st.results.failedTargets + planFailed cfg rf projects
        totalBytesRemoved :=
          st.results.totalBytesRemoved + planSucceededBytes cfg rf projects } := by
  induction projects with
  | nil =>
    intro st
    simp [runProjects, planTargets, planSucceeded, planFailed, planSucceededBytes]
  | cons p ps ih =>
    intro st
    have hq : runProjects cfg rf (p :: ps) st =
        runProjects cfg rf ps (cleanProject cfg rf p st) := by
      simp [runProjects]
    rw [hq, ih (cleanProject cfg rf p st), cleanProject_wet cfg rf h p st]
    simp [planTargets, planSucceeded, planFailed, planSucceededBytes]
    refine ⟨by omega, by omega, by omega, by omega, by omega⟩

theorem runProjects_failedProjects (cfg : Config) (rf : Path → Bool)
    (projects : List Project) (st : CleanState) :
    (runProjects cfg rf projects st).results.failedProjects =
      st.results.failedProjects := by
  cases hd : cfg.dryRun
  · rw [runProjects_wet cfg rf hd projects st]
  · rw [(runProjects_dry cfg rf hd projects st).2]

theorem runProjects_totalProjects (cfg : Config) (rf : Path → Bool)
    (projects : List Project) (st : CleanState) :
    (runProjects cfg rf projects st).results.totalProjects =
      st.results.totalProjects := by
  cases hd : cfg.dryRun
  · rw [runProjects_wet cfg rf hd projects st]
  · rw [(runProjects_dry cfg rf hd projects st).2]

theorem runProjects_cleanedProjects (cfg : Config) (rf : Path → Bool)
    (projects : List Project) (st : CleanState) :
    (runProjects cfg rf projects st).results.cleanedProjects =
      st.results.cleanedProjects + projects.length := by
  cases hd : cfg.dryRun
  · rw [runProjects_wet cfg rf hd projects st]
  · rw [(runProjects_dry cfg rf hd projects st).2]

theorem runProjects_totalBytes (cfg : Config) (rf : Path → Bool)
    (projects : List Project) (st : CleanState) :
    (runProjects cfg rf projects st).results.totalBytesRemoved =
      st.results.totalBytesRemoved +
        (if cfg.dryRun then planBytes cfg projects
         else planSucceededBytes cfg rf projects) := by
  cases hd : cfg.dryRun
  · rw [runProjects_wet cfg rf hd projects st]
    simp [hd]
  · rw [(runProjects_dry cfg rf hd projects st).2]
    simp [hd]

/-- On every branch where cleaning actually proceeds, `Cleaner::clean` is
the fold over the project list from the initial accumulator. -/
theorem clean_run_eq (cfg : Config) (rf : Path → Bool) (uc : Bool)
    (projects : List Project) (fs : FileSystem)
    (hne : projects.isEmpty = false)
    (hgo : cfg.force = true ∨ cfg.dryRun = true ∨ uc = true) :
    (clean cfg rf uc projects fs).fs =
      (runProjects cfg rf projects
        { fs := fs, results := CleanResults.init projects }).fs ∧
    (clean cfg rf uc projects fs).results =
      (runProjects cfg rf projects
        { fs := fs, results := CleanResults.init projects }).results := by
  by_cases hfd : (!cfg.force && !cfg.dryRun) = true
  · have huc : uc = true := by
      rcases hgo with hg | hg | hg
      · simp [hg] at hfd
      · simp [hg] at hfd
      · exact hg
    exact ⟨by simp [clean, hne, hfd, huc], by simp [clean, hne, hfd, huc]⟩
  · exact ⟨by simp [clean, hne, hfd], by simp [clean, hne, hfd]⟩

/-- **C3.** With `dry_run = true`, the Cleaner deletes no filesystem path
(every path present before the run is present after), and the returned
`total_bytes_removed` equals the sum of the sizes of all eligible
(non-skipped) targets. -/
theorem dryRun_preserves_fs_and_reports_plan_bytes (cfg : Config)
    (rf : Path → Bool) (uc : Bool) (projects : List Project) (fs : FileSystem)
    (h : cfg.dryRun = true) :
    (∀ p : Path, ((clean cfg rf uc projects fs).fs).pathExists p = fs.pathExists p) ∧
    (clean cfg rf uc projects fs).results.totalBytesRemoved =
      planBytes cfg projects := by
  by_cases hne : projects.isEmpty
  · have hnil : projects = [] := List.isEmpty_iff.mp hne
    subst hnil
    exact ⟨fun p => by simp [clean], by simp [clean, CleanResults.init, planBytes]⟩
  · obtain ⟨hfs, hres⟩ := clean_run_eq cfg rf uc projects fs
      (Bool.eq_false_iff.mpr hne) (Or.inr (Or.inl h))
    obtain ⟨hfs2, hres2⟩ := runProjects_dry cfg rf h projects
      { fs := fs, results := CleanResults.init projects }
    refine ⟨fun p => by rw [hfs, hfs2], ?_⟩
    rw [hres, hres2]
    simp [CleanResults.init]

/-- Witness for C3 at the spec scenario. -/
theorem dryRun_preserves_fs_and_reports_plan_bytes_witness :
    cfgC1.dryRun = true ∧
    ((∀ p : Path, ((clean cfgC1 removeFailsNone false scanC1 fsC1).fs).pathExists p =
        fsC1.pathExists p) ∧
      (clean cfgC1 removeFailsNone false scanC1 fsC1).results.totalBytesRemoved =
        planBytes cfgC1 scanC1) :=
  ⟨rfl, dryRun_preserves_fs_and_reports_plan_bytes cfgC1 removeFailsNone false
    scanC1 fsC1 rfl⟩

theorem planSucceeded_add_planFailed (cfg : Config) (rf : Path → Bool)
    (projects : List Project) :
    planSucceeded cfg rf projects + planFailed cfg rf projects =
      planEligible cfg projects := by
  induction projects with
  | nil => simp [planSucceeded, planFailed, planEligible]
  | cons p ps ih =>
    simp only [planSucceeded, planFailed, planEligible, List.map_cons,
      List.sum_cons] at ih ⊢
    have hsplit := List.length_eq_length_filter_add
      (l := eligibleTargets cfg p.detectedTargets) (fun t => rf t.path)
    omega

/-- **C4.** In a real run, if exactly one eligible target's removal fails
while all others succeed, the run reports `failed_targets = 1`, counts all
other eligible targets as cleaned, and still counts every project as
cleaned. -/
theorem single_target_failure_is_contained (cfg : Config) (rf : Path → Bool)
    (uc : Bool) (projects : List Project) (fs : FileSystem)
    (hdry : cfg.dryRun = false)
    (hgo : cfg.force = true ∨ uc = true)
    (hone : planFailed cfg rf projects = 1) :
    (clean cfg rf uc projects fs).results.failedTargets = 1 ∧
    (clean cfg rf uc projects fs).results.cleanedTargets =
      planEligible cfg projects - 1 ∧
    (clean cfg rf uc projects fs).results.cleanedProjects =
      (clean cfg rf uc projects fs).results.totalProjects := by
  have hne : projects.isEmpty = false := by
    cases projects with
    | nil => simp [planFailed] at hone
    | cons p ps => simp
  obtain ⟨_, hres⟩ := clean_run_eq cfg rf uc projects fs hne
    (by rcases hgo with hg | hg
        · exact Or.inl hg
        · exact Or.inr (Or.inr hg))
  rw [hres, runProjects_wet cfg rf hdry projects _]
  have hsum := planSucceeded_add_planFailed cfg rf projects
  simp [CleanResults.init]
  exact ⟨hone, by omega⟩

/-- Witness for C4: one project with two eligible targets, removal of the
first injected to fail. -/
theorem single_target_failure_is_contained_witness :
    (cfgWet.dryRun = false ∧ (cfgWet.force = true ∨ false = true) ∧
      planFailed cfgWet removeFailsW [projW] = 1) ∧
    ((clean cfgWet removeFailsW false [projW] fsC1).results.failedTargets = 1 ∧
      (clean cfgWet removeFailsW false [projW] fsC1).results.cleanedTargets =
        planEligible cfgWet [projW] - 1 ∧
      (clean cfgWet removeFailsW false [projW] fsC1).results.cleanedProjects =
        (clean cfgWet removeFailsW false [projW] fsC1).results.totalProjects) :=
  ⟨⟨rfl, Or.inl rfl, by decide⟩,
    single_target_failure_is_contained cfgWet removeFailsW false [projW] fsC1
      rfl (Or.inl rfl) (by decide)⟩

/-- **C9.** `Cleaner::clean` always reports `failed_projects = 0`, and
whenever cleaning proceeds (non-empty list, not cancelled at the
confirmation prompt) it reports `cleaned_projects = total_projects`, even
when target removals fail. -/
theorem cleaner_counts_every_project_cleaned :
    (∀ (cfg : Config) (rf : Path → Bool) (uc : Bool) (projects : List Project)
      (fs : FileSystem),
      (clean cfg rf uc projects fs).results.failedProjects = 0) ∧
    (∀ (cfg : Config) (rf : Path → Bool) (uc : Bool) (projects : List Project)
      (fs : FileSystem),
      projects.isEmpty = false →
      (cfg.force = true ∨ cfg.dryRun = true ∨ uc = true) →
      (clean cfg rf uc projects fs).results.cleanedProjects =
        (clean cfg rf uc projects fs).results.totalProjects) := by
  constructor
  · intro cfg rf uc projects fs
    by_cases hne : projects.isEmpty <;>
      by_cases hfd : (!cfg.force && !cfg.dryRun) = true <;>
      by_cases huc : uc = true <;>
      simp [clean, hne, hfd, huc, CleanResults.init,
        runProjects_failedProjects]
  · intro cfg rf uc projects fs hne hgo
    obtain ⟨_, hres⟩ := clean_run_eq cfg rf uc projects fs hne hgo
    rw [hres, runProjects_cleanedProjects, runProjects_totalProjects]
    simp [CleanResults.init]

/-- Witness for C9 at the spec scenario. -/
theorem cleaner_counts_every_project_cleaned_witness :
    (clean cfgC1 removeFailsNone false scanC1 fsC1).results.failedProjects = 0 ∧
    (clean cfgC1 removeFailsNone false scanC1 fsC1).results.cleanedProjects =
      (clean cfgC1 removeFailsNone false scanC1 fsC1).results.totalProjects :=
  ⟨cleaner_counts_every_project_cleaned.1 cfgC1 removeFailsNone false scanC1 fsC1,
    cleaner_counts_every_project_cleaned.2 cfgC1 removeFailsNone false scanC1 fsC1
      (by decide) (Or.inr (Or.inl rfl))⟩

theorem mem_ite_nil {α : Type} {c : Prop} [Decidable c] {l : List α} {a : α}
    (h : a ∈ if c then l else []) : a ∈ l := by
  split at h
  · exact h
  · cases h

theorem determineCleanTargets_sizes_none (gm : String → Path → Bool)
    (cfg : Config) (fs : FileSystem) (proj : Project) (h : cfg.stats = false) :
    ∀ t ∈ (determineCleanTargets gm cfg fs proj).detectedTargets,
      t.size = none := by
  intro t ht
  simp only [determineCleanTargets, List.mem_filter] at ht
  obtain ⟨ht, _⟩ := ht
  simp only [List.mem_append] at ht
  rcases ht with (((h1 | h2) | h3) | h4) | h5
  · rcases List.mem_singleton.mp (mem_ite_nil h1) with rfl
    simp [measuredSize, h]
  · obtain ⟨n, _, rfl⟩ := List.mem_map.mp (mem_ite_nil h2)
    simp [measuredSize, h]
  · obtain ⟨n, _, rfl⟩ := List.mem_map.mp (mem_ite_nil h3)
    simp [measuredSize, h]
  · obtain ⟨n, _, rfl⟩ := List.mem_map.mp (mem_ite_nil h4)
    simp [measuredSize, h]
  · obtain ⟨n, _, rfl⟩ := List.mem_map.mp h5
    simp [measuredSize, h]

theorem scan_sizes_none (gm : String → Path → Bool) (cfg : Config)
    (fs : FileSystem) (fuel : Nat) (root : Path) (h : cfg.stats = false) :
    ∀ proj ∈ scan gm cfg fs fuel root, ∀ t ∈ proj.detectedTargets,
      t.size = none := by
  intro proj hproj
  simp only [scan, List.mem_map] at hproj
  obtain ⟨path, _, rfl⟩ := hproj
  simp only [analyzeProject, h, Bool.false_eq_true, if_false]
  exact determineCleanTargets_sizes_none gm cfg fs _ h

theorem targetsBytes_eq_zero {ts : List CleanTarget}
    (h : ∀ t ∈ ts, t.size = none) : targetsBytes ts = 0 := by
  induction ts with
  | nil => rfl
  | cons t ts ih =>
    have ht := h t (List.mem_cons_self t ts)
    simp only [targetsBytes, List.map_cons, List.sum_cons, ht, Option.getD_none]
    simpa [targetsBytes] using ih (fun x hx => h x (List.mem_cons_of_mem t hx))

theorem clean_bytes_zero (cfg : Config) (rf : Path → Bool) (uc : Bool)
    (projects : List Project) (fs : FileSystem)
    (h : ∀ p ∈ projects, ∀ t ∈ p.detectedTargets, t.size = none) :
    (clean cfg rf uc projects fs).results.totalBytesRemoved = 0 := by
  have hpb : planBytes cfg projects = 0 := by
    simp only [planBytes]
    apply List.sum_eq_zero
    intro x hx
    obtain ⟨p, hp, rfl⟩ := List.mem_map.mp hx
    exact targetsBytes_eq_zero
      (fun t ht => h p hp t (List.mem_filter.mp ht).1)
  have hpsb : planSucceededBytes cfg rf projects = 0 := by
    simp only [planSucceededBytes]
    apply List.sum_eq_zero
    intro x hx
    obtain ⟨p, hp, rfl⟩ := List.mem_map.mp hx
    exact targetsBytes_eq_zero
      (fun t ht => h p hp t (List.mem_filter.mp (List.mem_filter.mp ht).1).1)
  by_cases hne : projects.isEmpty <;>
    by_cases hfd : (!cfg.force && !cfg.dryRun) = true <;>
    by_cases huc : uc = true <;>
    simp [clean, hne, hfd, huc, CleanResults.init, runProjects_totalBytes,
      hpb, hpsb]

/-- **C10.** With `stats = false`, every `CleanTarget` the Scanner
constructs has `size = None`, and the final `total_bytes_removed` is 0 —
in dry and real runs alike. -/
theorem stats_off_yields_no_sizes_and_zero_bytes (gm : String → Path → Bool)
    (cfg : Config) (fs : FileSystem) (fuel : Nat) (root : Path)
    (rf : Path → Bool) (uc : Bool) (h : cfg.stats = false) :
    (∀ proj ∈ scan gm cfg fs fuel root, ∀ t ∈ proj.detectedTargets,
      t.size = none) ∧
    (clean cfg rf uc (scan gm cfg fs fuel root) fs).results.totalBytesRemoved
      = 0 := by
  have hs := scan_sizes_none gm cfg fs fuel root h
  exact ⟨hs, clean_bytes_zero cfg rf uc _ fs hs⟩

/-- Witness for C10 at the spec scenario (a real, non-dry wet
configuration). -/
theorem stats_off_yields_no_sizes_and_zero_bytes_witness :
    cfgWet.stats = false ∧
    ((∀ proj ∈ scan gm0 cfgWet fsC1 20 rootC1, ∀ t ∈ proj.detectedTargets,
        t.size = none) ∧
      (clean cfgWet removeFailsNone false (scan gm0 cfgWet fsC1 20 rootC1)
        fsC1).results.totalBytesRemoved = 0) :=
  ⟨rfl, stats_off_yields_no_sizes_and_zero_bytes gm0 cfgWet fsC1 20 rootC1
    removeFailsNone false rfl⟩

/-- **C6 counterexample.** A non-empty project list whose plan contains
zero targets, with `force` and `dry_run` both false, still triggers the
interactive confirmation prompt. -/
theorem empty_plan_still_prompts :
    (clean cfgNoForce removeFailsNone false [emptyProj] fsC1).prompted = true ∧
    planTargets [emptyProj] = 0 :=
  ⟨rfl, rfl⟩

/-- **C6 amended.** The Cleaner skips the confirmation prompt exactly when
the project *list* is empty or `force`/`dry_run` is set; a non-empty list
whose projects all have empty target lists still prompts. -/
theorem prompt_iff_nonempty_list_and_interactive (cfg : Config)
    (rf : Path → Bool) (uc : Bool) (projects : List Project) (fs : FileSystem) :
    (clean cfg rf uc projects fs).prompted =
      (!projects.isEmpty && (!cfg.force && !cfg.dryRun)) := by
  by_cases hne : projects.isEmpty <;>
    by_cases hfd : (!cfg.force && !cfg.dryRun) = true <;>
    by_cases huc : uc = true <;>
    simp [clean, hne, hfd, huc]

theorem scanStep_visited (cfg : Config) (fs : FileSystem) (s : ScanState) :
    (scanStep cfg fs s).visited =
      match s.queue with
      | [] => s.visited
      | (path, _) :: _ =>
        if path ∈ s.visited then s.visited else path :: s.visited := by
  rcases hq : s.queue with _ | ⟨⟨path, depth⟩, rest⟩
  · simp [scanStep, hq]
  · by_cases hv : path ∈ s.visited
    · simp [scanStep, hq, hv]
    · simp only [scanStep, hq, if_neg hv]
      simp [apply_ite ScanState.visited]

theorem scanStep_visited_nodup (cfg : Config) (fs : FileSystem) (s : ScanState)
    (h : s.visited.Nodup) : (scanStep cfg fs s).visited.Nodup := by
  rw [scanStep_visited]
  rcases hq : s.queue with _ | ⟨⟨path, depth⟩, rest⟩
  · exact h
  · by_cases hv : path ∈ s.visited
    · simpa [hv] using h
    · simpa [hv] using List.nodup_cons.mpr ⟨hv, h⟩

theorem scanRun_visited_nodup (cfg : Config) (fs : FileSystem) :
    ∀ (fuel : Nat) (s : ScanState), s.visited.Nodup →
      (scanRun cfg fs fuel s).visited.Nodup := by
  intro fuel
  induction fuel with
  | zero => intro s h; exact h
  | succ n ih =>
    intro s h
    by_cases hq : s.queue.isEmpty
    · simpa [scanRun, hq] using h
    · simpa [scanRun, hq] using
        ih (scanStep cfg fs s) (scanStep_visited_nodup cfg fs s h)

/-- **C7 counterexample.** On a filesystem where the root's two directory
entries `a` and `b` are two names of the same underlying directory
(`canon` maps both to `r/a`), the traversal processes that directory
twice: the visited set is keyed by the raw path, not the canonical one. -/
theorem aliased_directory_processed_twice :
    ¬ (((scanRun cfgC1 fsC7 10 (ScanState.init ["r"])).visited.map
        fsC7.canon).Nodup) ∧
    ¬ (((findProjectPaths cfgC1 fsC7 10 ["r"]).map fsC7.canon).Nodup) := by
  refine ⟨by decide, by decide⟩

/-- **C7 amended.** The visited set of `find_project_paths` is keyed by
the raw (as-enqueued, uncanonicalized) path, so each path *name* is
processed at most once; a directory reachable under two distinct names may
be processed once per name. -/
theorem traversal_visits_each_raw_path_once (cfg : Config) (fs : FileSystem)
    (fuel : Nat) (root : Path) :
    ((scanRun cfg fs fuel (ScanState.init root)).visited).Nodup :=
  scanRun_visited_nodup cfg fs fuel (ScanState.init root)
    (by simp [ScanState.init])

theorem countP_executeHook (plugins : List String) (h h' : HookType) :
    (executeHook plugins h).countP (fun e => decide (e.2 = h')) =
      if h = h' then plugins.length else 0 := by
  induction plugins with
  | nil => simp [executeHook]
  | cons p ps ih =>
    by_cases hh : h = h' <;>
      simp only [executeHook, List.map_cons, List.countP_cons] at ih ⊢ <;>
      simp [hh] at ih ⊢

/-- **C8 counterexample.** For a run over the (non-empty) scenario project
list with one registered plugin, the plugin's before-project hook is
invoked zero times, not once per project. -/
theorem per_project_hooks_never_invoked :
    (mainHookTrace ["example_plugin"] scanC1).countP
        (fun e => decide (e.2 = HookType.beforeCleanProject)) = 0 ∧
    scanC1.length = 2 := by
  exact ⟨rfl, by decide⟩

/-- **C8 amended.** Lifecycle hooks are invoked at exactly two points of
every run — once per registered plugin before the whole batch and once
after — and the per-project hook types, though declared, are never
invoked. -/
theorem hooks_invoked_only_around_whole_batch (plugins : List String)
    (projects : List Project) :
    (mainHookTrace plugins projects).countP
        (fun e => decide (e.2 = HookType.beforeCleaning)) = plugins.length ∧
    (mainHookTrace plugins projects).countP
        (fun e => decide (e.2 = HookType.afterCleaning)) = plugins.length ∧
    (mainHookTrace plugins projects).countP
        (fun e => decide (e.2 = HookType.beforeCleanProject)) = 0 ∧
    (mainHookTrace plugins projects).countP
        (fun e => decide (e.2 = HookType.afterCleanProject)) = 0 := by
  simp [mainHookTrace, List.countP_append, countP_executeHook]

/-- **C1.** Full evaluation of the spec's acceptance scenario: the
non-recursive dry-run scan reports exactly the two projects, proposes
cleaning `node_modules` and `.next` for `proj-a` and `dist` for `proj-b`,
and removes nothing from disk — but classifies *both* projects as
`NodeJs`, not as `NextJs`/`Vue` as the spec requires: every framework
detector returns `Ok(false)` while `package_info` is still `None`, and
only the lowest-priority `DefaultDetector` populates it. -/
theorem scenario_reports_targets_but_misclassifies :
    scanC1.map (fun p => p.path) = [projAPath, projBPath] ∧
    scanC1.map (fun p => p.projectType) =
      [ProjectType.NodeJs, ProjectType.NodeJs] ∧
    scanC1.map (fun p => p.detectedTargets.map (fun t => (t.path, t.targetType)))
      = [ [ (projAPath ++ ["node_modules"], TargetType.NodeModules)
          , (projAPath ++ [".next"], TargetType.BuildDir) ]
        , [ (projBPath ++ ["dist"], TargetType.BuildDir) ] ] ∧
    (∀ q : Path,
      ((clean cfgC1 removeFailsNone false scanC1 fsC1).fs).pathExists q =
        fsC1.pathExists q) := by
  refine ⟨by decide, by decide, by decide, fun q => ?_⟩
  exact (dryRun_preserves_fs_and_reports_plan_bytes cfgC1 removeFailsNone false
    scanC1 fsC1 rfl).1 q

/-- **C2.** On the scenario's `proj-a` as analyzed by the Scanner, both
the NextJs detector (priority 80) and the generic detector (priority 200)
match the populated project, and the build-dir lookup indeed resolves to
the NextJs detector — yet the project type assigned by the classification
pass is `NodeJs`, i.e. it came from the lower-priority generic detector,
contradicting first-match-wins for the type. -/
theorem type_not_resolved_by_higher_priority_detector :
    detectorMatches .nextJs fsC1 (analyzeProject gm0 cfgC1 fsC1 projAPath)
      = true ∧
    detectorMatches .defaultDet fsC1 (analyzeProject gm0 cfgC1 fsC1 projAPath)
      = true ∧
    Detector.priority .nextJs < Detector.priority .defaultDet ∧
    findDetector fsC1 (analyzeProject gm0 cfgC1 fsC1 projAPath) =
      Detector.nextJs ∧
    (analyzeProject gm0 cfgC1 fsC1 projAPath).projectType =
      ProjectType.NodeJs := by
  decide

/-- **C5 counterexample.** Under the scenario configuration extended with
the custom target name `node_modules`, the Scanner produces `proj-a` with
two plan entries for the same path (`proj-a/node_modules`, once as
`NodeModules` and once as `Custom`): `determine_clean_targets` never
deduplicates. -/
theorem custom_target_name_duplicates_plan_path :
    scanC5.map (fun p => decide ((p.detectedTargets.map (fun t => t.path)).Nodup))
      = [false, true] := by
  decide

theorem detector_names_nodup_and_reserved (d : Detector) :
    ("node_modules" :: (d.buildDirs ++ d.cacheDirs ++ d.coverageDirs)).Nodup ∧
    ∀ n ∈ ("node_modules" :: (d.buildDirs ++ d.cacheDirs ++ d.coverageDirs)),
      n ∈ reservedNames := by
  cases d <;> exact ⟨by decide, by decide⟩

theorem detectedTargets_paths_sub (gm : String → Path → Bool) (cfg : Config)
    (fs : FileSystem) (proj : Project) :
    List.Sublist
      (((determineCleanTargets gm cfg fs proj).detectedTargets).map
        (fun t => t.path))
      ((["node_modules"] ++ Detector.buildDirs (findDetector fs proj) ++
          Detector.cacheDirs (findDetector fs proj) ++
          Detector.coverageDirs (findDetector fs proj) ++
          cfg.customTargets).map
        (fun n => Path.child proj.path n)) := by
  simp only [determineCleanTargets]
  refine List.Sublist.trans
    (List.Sublist.map _ (List.filter_sublist _)) ?_
  simp only [List.map_append]
  refine List.Sublist.append (List.Sublist.append (List.Sublist.append
    (List.Sublist.append ?_ ?_) ?_) ?_) ?_
  · split
    · simp
    · simp
  · split
    · simp only [List.map_map, Function.comp]
      exact List.Sublist.map _ (List.filter_sublist _)
    · simp
  · split
    · simp only [List.map_map, Function.comp]
      exact List.Sublist.map _ (List.filter_sublist _)
    · simp
  · split
    · simp only [List.map_map, Function.comp]
      exact List.Sublist.map _ (List.filter_sublist _)
    · simp
  · simp only [List.map_map, Function.comp]
    exact List.Sublist.map _ (List.filter_sublist _)

theorem determineCleanTargets_paths_nodup (gm : String → Path → Bool)
    (cfg : Config) (fs : FileSystem) (proj : Project)
    (h1 : cfg.customTargets.Nodup)
    (h2 : ∀ n ∈ cfg.customTargets, n ∉ reservedNames) :
    (((determineCleanTargets gm cfg fs proj).detectedTargets).map
      (fun t => t.path)).Nodup := by
  have hfix := detector_names_nodup_and_reserved (findDetector fs proj)
  have hdisj : List.Disjoint
      ("node_modules" :: (Detector.buildDirs (findDetector fs proj) ++
        Detector.cacheDirs (findDetector fs proj) ++
        Detector.coverageDirs (findDetector fs proj)))
      cfg.customTargets :=
    fun {a} ha hb => h2 a hb (hfix.2 a ha)
  have hM := hfix.1.append h1 hdisj
  have hM' : (["node_modules"] ++ Detector.buildDirs (findDetector fs proj) ++
      Detector.cacheDirs (findDetector fs proj) ++
      Detector.coverageDirs (findDetector fs proj) ++
      cfg.customTargets).Nodup := by
    simpa [List.append_assoc] using hM
  have hinj : Function.Injective (fun n => Path.child proj.path n) := by
    intro a b hab
    simp only [Path.child] at hab
    have h' : [a] = [b] := List.append_cancel_left hab
    simpa using h'
  exact List.Nodup.sublist (detectedTargets_paths_sub gm cfg fs proj)
    (hM'.map hinj)

/-- **C5 amended.** As long as the user's custom target names are pairwise
distinct and distinct from the dependency directory and from every
directory name a built-in detector can contribute, every project produced
by the Scanner has pairwise-distinct paths in `detected_targets`. -/
theorem scanner_paths_distinct_without_name_collisions
    (gm : String → Path → Bool) (cfg : Config) (fs : FileSystem)
    (fuel : Nat) (root : Path)
    (h1 : cfg.customTargets.Nodup)
    (h2 : ∀ n ∈ cfg.customTargets, n ∉ reservedNames) :
    ∀ proj ∈ scan gm cfg fs fuel root,
      (proj.detectedTargets.map (fun t => t.path)).Nodup := by
  intro proj hproj
  simp only [scan, List.mem_map] at hproj
  obtain ⟨path, _, rfl⟩ := hproj
  simp only [analyzeProject]
  by_cases hs : cfg.stats
  · have hcs : ∀ q : Project, (calculateSizeInfo q).detectedTargets =
        q.detectedTargets := by
      intro q
      simp [calculateSizeInfo]
    simp only [hs, if_true, hcs]
    exact determineCleanTargets_paths_nodup gm cfg fs _ h1 h2
  · simp only [hs, if_false]
    exact determineCleanTargets_paths_nodup gm cfg fs _ h1 h2

/-- Witness for the amended C5: a custom target name (`tmp`) that collides
with nothing. -/
theorem scanner_paths_distinct_without_name_collisions_witness :
    (cfgTmp.customTargets.Nodup ∧
      ∀ n ∈ cfgTmp.customTargets, n ∉ reservedNames) ∧
    (∀ proj ∈ scan gm0 cfgTmp fsC1 20 rootC1,
      (proj.detectedTargets.map (fun t => t.path)).Nodup) :=
  ⟨⟨by decide, by decide⟩,
    scanner_paths_distinct_without_name_collisions gm0 cfgTmp fsC1 20 rootC1
      (by decide) (by decide)⟩

end Npmclean
